import Mathlib

/-!
Shallow embedding of the aregalo gift-registry backend
(`src/aregalo/schema.py`, `src/aregalo/store.py`, `src/aregalo/service.py`).

Python `int` is modelled as `Int` (arbitrary precision, no overflow),
`Optional[T]` as `Option T`, Python lists as `List`, and the two
`Dict[str, ...]` tables of `FileStore` as association lists with Python
`dict` semantics (assignment replaces in place, new keys append at the end).
An operation of `StoreService` is a function from the store state to a
result together with the store state left behind; a raised exception is an
`Except.error` value paired with the state at the moment of the raise.
-/

set_option autoImplicit false

namespace Aregalo

/-- `User` dataclass of `schema.py`. -/
structure User where
  name : String
  «alias» : String
  icon : String
  present_id : Int
deriving DecidableEq, Repr

/-- `Present` dataclass of `schema.py`. -/
structure Present where
  id : Int
  title : String
  description : String := ""
  link : Option String := some ""
  price : Option Int := none
  favourite : Bool := false
  assigned_to : List String := []
deriving DecidableEq, Repr

/-- `UserData` dataclass of `schema.py`. -/
structure UserData where
  name : String
  «alias» : String
  icon : String
deriving DecidableEq, Repr

/-- `PresentCreateData` dataclass of `schema.py`. -/
structure PresentCreateData where
  title : String
  description : String := ""
  link : Option String := some ""
  price : Option Int := none
  favourite : Bool := false
deriving DecidableEq, Repr

/-- `PresentWishData` dataclass of `schema.py`. -/
structure PresentWishData where
  id : Int
  title : String
  description : String := ""
  link : Option String := some ""
  price : Option Int := none
  favourite : Bool := false
deriving DecidableEq, Repr

/-- `PresentGiftData` dataclass of `schema.py`. -/
structure PresentGiftData where
  id : Int
  title : String
  description : String := ""
  link : Option String := some ""
  price : Option Int := none
  favourite : Bool := false
  assigned_to : List String := []
deriving DecidableEq, Repr

/-- `User.to_user_data` of `schema.py`. -/
def User.to_user_data (u : User) : UserData :=
  { name := u.name, «alias» := u.«alias», icon := u.icon }

/-- `Present.to_present_wish_response` of `schema.py`: copies every field
except `assigned_to`. -/
def Present.to_present_wish_response (p : Present) : PresentWishData :=
  { id := p.id, title := p.title, description := p.description,
    link := p.link, price := p.price, favourite := p.favourite }

/-- `Present.to_present_gift_response` of `schema.py`: copies every field
including `assigned_to`. -/
def Present.to_present_gift_response (p : Present) : PresentGiftData :=
  { id := p.id, title := p.title, description := p.description,
    link := p.link, price := p.price, favourite := p.favourite,
    assigned_to := p.assigned_to }

/-- `PresentCreateData.to_present` of `schema.py`. -/
def PresentCreateData.to_present (d : PresentCreateData) (id : Int)
    (assigned_to : List String) : Present :=
  { id := id, title := d.title, description := d.description,
    link := d.link, price := d.price, favourite := d.favourite,
    assigned_to := assigned_to }

/-- `PresentWishData.to_present` of `schema.py`.  Note that the `id` of the
resulting `Present` is `self.id`, the id carried by the payload. -/
def PresentWishData.to_present (d : PresentWishData)
    (assigned_to : List String) : Present :=
  { id := d.id, title := d.title, description := d.description,
    link := d.link, price := d.price, favourite := d.favourite,
    assigned_to := assigned_to }

/-! ## The store (`FileStore` of `store.py`)

The two in-memory tables `_users : Dict[str, User]` and
`_presents : Dict[str, List[Present]]`, modelled as association lists in
insertion order.  File persistence mirrors the in-memory tables and adds
nothing observable, so the state is just the two tables. -/

/-- Python `d[k] if k in d else None`, on an association list. -/
def lookupA {α : Type} (l : List (String × α)) (k : String) : Option α :=
  match l.find? (fun kv => kv.fst == k) with
  | some kv => some kv.snd
  | none => none

/-- Python `d[k] = v`: replace the binding in place if the key exists
(a dict holds at most one binding per key, so replacing the first binding
is replacing the binding), otherwise append it (dicts preserve insertion
order). -/
def upsertA {α : Type} (l : List (String × α)) (k : String) (v : α) :
    List (String × α) :=
  match l with
  | [] => [(k, v)]
  | kv :: rest => if kv.fst == k then (k, v) :: rest else kv :: upsertA rest k v

/-- The state of a `FileStore`: its users table and its presents table. -/
structure StoreState where
  users : List (String × User)
  presents : List (String × List Present)
deriving DecidableEq, Repr

/-- `FileStore.get_user`. -/
def StoreState.get_user (s : StoreState) (name : String) : Option User :=
  lookupA s.users name

/-- `FileStore.upsert_user`. -/
def StoreState.upsert_user (s : StoreState) (u : User) : StoreState :=
  { s with users := upsertA s.users u.name u }

/-- `FileStore.get_presents`. -/
def StoreState.get_presents (s : StoreState) (name : String) :
    Option (List Present) :=
  lookupA s.presents name

/-- `FileStore.upsert_presents`. -/
def StoreState.upsert_presents (s : StoreState) (name : String)
    (presents : List Present) : StoreState :=
  { s with presents := upsertA s.presents name presents }

/-- A sample user record for concrete instances, with counter `c`. -/
def aliceUser (c : Int) : User :=
  { name := "alice", «alias» := "a", icon := "i", present_id := c }

/-! ## The service (`StoreService` of `service.py`) -/

/-- How a `StoreService` operation can fail.

* `userNotFound` — the `HTTPException` with detail `No user with name ...`
  raised by `get_user_data`, `get_user_present_wish_list` and
  `get_user_present_gift_list`;
* `presentNotFound` — the `HTTPException` with detail
  `No present with id ...` raised by `find_present_in_list_by_id`;
* `noneCrash` — the uncaught Python `TypeError` / `AttributeError` that
  `create_present` and `find_present_in_list_by_id` raise when they use a
  `None` returned by the store as if it were a record
  (`None.present_id`, `next(filter(..., None))`, `None.append`). -/
inductive ServiceError where
  | userNotFound
  | presentNotFound
  | noneCrash
deriving DecidableEq, Repr

/-- `StoreService.get_user_data`. -/
def get_user_data (s : StoreState) (user : String) :
    Except ServiceError UserData :=
  match s.get_user user with
  | none => .error .userNotFound
  | some store_user => .ok store_user.to_user_data

/-- `StoreService.get_user_present_wish_list`. -/
def get_user_present_wish_list (s : StoreState) (user : String) :
    Except ServiceError (List PresentWishData) :=
  match s.get_presents user with
  | none => .error .userNotFound
  | some store_presents => .ok (store_presents.map Present.to_present_wish_response)

/-- `StoreService.get_user_present_gift_list`. -/
def get_user_present_gift_list (s : StoreState) (user : String) :
    Except ServiceError (List PresentGiftData) :=
  match s.get_presents user with
  | none => .error .userNotFound
  | some store_presents => .ok (store_presents.map Present.to_present_gift_response)

/-- `StoreService.find_present_in_list_by_id`.

When the user has no present list, `get_presents` returns `None` and
`next(filter(lambda p: p.id == present_id, None), None)` raises `TypeError`
(`noneCrash`); the `No present with id` `HTTPException` is only reached when
a list exists but holds no present with the id.  `presents.index(found)` is
the position of the first element value-equal (dataclass `__eq__`) to the
found present, i.e. `List.indexOf`. -/
def find_present_in_list_by_id (s : StoreState) (user : String)
    (present_id : Int) :
    Except ServiceError (List Present × Present × Nat) :=
  match s.get_presents user with
  | none => .error .noneCrash
  | some presents =>
    match presents.find? (fun p => p.id == present_id) with
    | none => .error .presentNotFound
    | some found => .ok (presents, found, presents.indexOf found)

/-- `StoreService.create_present`.

`get_user` can return `None`, in which case `wish_user.present_id` raises
`AttributeError` before anything is written; if the user exists but has no
present list, the incremented counter is already persisted when
`presents.append` raises `AttributeError` on `None`. -/
def create_present (s : StoreState) (user : String)
    (present : PresentCreateData) :
    Except ServiceError (List PresentWishData) × StoreState :=
  match s.get_user user with
  | none => (.error .noneCrash, s)
  | some wish_user =>
    let present_id := wish_user.present_id
    let wish_user2 : User := { wish_user with present_id := present_id + 1 }
    let s1 := s.upsert_user wish_user2
    match s1.get_presents user with
    | none => (.error .noneCrash, s1)
    | some presents =>
      let presents2 := presents ++ [present.to_present present_id []]
      let s2 := s1.upsert_presents user presents2
      (.ok (presents2.map Present.to_present_wish_response), s2)

/-- `StoreService.update_present`.  `presents[i] = present.to_present(found.assigned_to)`
then persist. -/
def update_present (s : StoreState) (user : String) (present_id : Int)
    (present : PresentWishData) :
    Except ServiceError (List PresentWishData) × StoreState :=
  match find_present_in_list_by_id s user present_id with
  | .error e => (.error e, s)
  | .ok (presents, found, i) =>
    let presents2 := presents.set i (present.to_present found.assigned_to)
    let s2 := s.upsert_presents user presents2
    (.ok (presents2.map Present.to_present_wish_response), s2)

/-- `StoreService.delete_present`.  `del presents[i]` then persist. -/
def delete_present (s : StoreState) (user : String) (present_id : Int) :
    Except ServiceError (List PresentWishData) × StoreState :=
  match find_present_in_list_by_id s user present_id with
  | .error e => (.error e, s)
  | .ok (presents, _, i) =>
    let presents2 := presents.eraseIdx i
    let s2 := s.upsert_presents user presents2
    (.ok (presents2.map Present.to_present_wish_response), s2)

/-- `StoreService.assign_user_to_present`.  The element at
`found_present_index` is value-equal to `found_present` (Python `list.index`
returns the first value-equal position), so the membership test and the
append read and write `found.assigned_to`. -/
def assign_user_to_present (s : StoreState) (user : String)
    (present_id : Int) (gifter : String) :
    Except ServiceError (List PresentGiftData) × StoreState :=
  match find_present_in_list_by_id s user present_id with
  | .error e => (.error e, s)
  | .ok (presents, found, i) =>
    if gifter ∈ found.assigned_to then
      (.ok (presents.map Present.to_present_gift_response), s)
    else
      let presents2 :=
        presents.set i { found with assigned_to := found.assigned_to ++ [gifter] }
      let s2 := s.upsert_presents user presents2
      (.ok (presents2.map Present.to_present_gift_response), s2)

/-- `StoreService.remove_user_from_present`.  `list.remove` deletes the
first occurrence, i.e. `List.erase`. -/
def remove_user_from_present (s : StoreState) (user : String)
    (present_id : Int) (gifter : String) :
    Except ServiceError (List PresentGiftData) × StoreState :=
  match find_present_in_list_by_id s user present_id with
  | .error e => (.error e, s)
  | .ok (presents, found, i) =>
    if gifter ∈ found.assigned_to then
      let presents2 :=
        presents.set i { found with assigned_to := found.assigned_to.erase gifter }
      let s2 := s.upsert_presents user presents2
      (.ok (presents2.map Present.to_present_gift_response), s2)
    else
      (.ok (presents.map Present.to_present_gift_response), s)

/-! ## Association-list and store lemmas -/

lemma lookupA_nil {α : Type} (k : String) :
    lookupA ([] : List (String × α)) k = none :=
  rfl

lemma lookupA_cons {α : Type} (kv : String × α) (rest : List (String × α))
    (k : String) :
    lookupA (kv :: rest) k = if kv.fst == k then some kv.snd else lookupA rest k := by
  simp only [lookupA, List.find?_cons]
  cases h : (kv.fst == k) <;> simp

lemma lookupA_upsertA_self {α : Type} (l : List (String × α)) (k : String)
    (v : α) : lookupA (upsertA l k v) k = some v := by
  induction l with
  | nil => simp [upsertA, lookupA_cons, lookupA_nil]
  | cons kv rest ih =>
    by_cases h : kv.fst = k
    · simp [upsertA, h, lookupA_cons]
    · have hb : (kv.fst == k) = false := beq_false_of_ne h
      simp [upsertA, hb, lookupA_cons, ih]

lemma lookupA_upsertA_ne {α : Type} (l : List (String × α)) (k k' : String)
    (v : α) (h : k' ≠ k) : lookupA (upsertA l k v) k' = lookupA l k' := by
  have hb : (k == k') = false := beq_false_of_ne (Ne.symm h)
  induction l with
  | nil => simp [upsertA, lookupA_cons, lookupA_nil, hb]
  | cons kv rest ih =>
    by_cases hk : kv.fst = k
    · simp [upsertA, hk, lookupA_cons, hb]
    · have hbk : (kv.fst == k) = false := beq_false_of_ne hk
      simp only [upsertA, hbk, Bool.false_eq_true, if_false, lookupA_cons, ih]

@[simp] lemma get_presents_upsert_user (s : StoreState) (u : User)
    (name : String) : (s.upsert_user u).get_presents name = s.get_presents name :=
  rfl

@[simp] lemma get_user_upsert_presents (s : StoreState) (name name' : String)
    (ps : List Present) :
    (s.upsert_presents name ps).get_user name' = s.get_user name' :=
  rfl

@[simp] lemma users_upsert_presents (s : StoreState) (name : String)
    (ps : List Present) : (s.upsert_presents name ps).users = s.users :=
  rfl

@[simp] lemma get_presents_upsert_presents_self (s : StoreState)
    (name : String) (ps : List Present) :
    (s.upsert_presents name ps).get_presents name = some ps :=
  lookupA_upsertA_self _ _ _

lemma get_presents_upsert_presents_ne (s : StoreState) (name name' : String)
    (ps : List Present) (h : name' ≠ name) :
    (s.upsert_presents name ps).get_presents name' = s.get_presents name' :=
  lookupA_upsertA_ne _ _ _ _ h

@[simp] lemma get_user_upsert_user_self (s : StoreState) (u : User) :
    (s.upsert_user u).get_user u.name = some u :=
  lookupA_upsertA_self _ _ _

lemma get_user_upsert_user_ne (s : StoreState) (u : User) (name : String)
    (h : name ≠ u.name) : (s.upsert_user u).get_user name = s.get_user name :=
  lookupA_upsertA_ne _ _ _ _ h

/-! ## `find?` / `indexOf` characterization -/

lemma find?_first_spec {α : Type} (p : α → Bool) (l : List α) (a : α)
    (h : l.find? p = some a) :
    ∃ i : Nat, l[i]? = some a ∧ p a = true ∧
      ∀ k b, k < i → l[k]? = some b → p b = false := by
  induction l with
  | nil => simp at h
  | cons hd tl ih =>
    rw [List.find?_cons] at h
    cases hp : p hd with
    | true =>
      rw [hp] at h
      have ha : hd = a := Option.some.inj h
      subst ha
      refine ⟨0, by simp, hp, ?_⟩
      intro k b hk hb
      exact absurd hk (Nat.not_lt_zero k)
    | false =>
      rw [hp] at h
      obtain ⟨i, h1, h2, h3⟩ := ih h
      refine ⟨i + 1, by simpa using h1, h2, ?_⟩
      intro k b hk hb
      cases k with
      | zero =>
        have hb' : hd = b := by simpa using hb
        subst hb'
        exact hp
      | succ k =>
        exact h3 k b (by omega) (by simpa using hb)

lemma find?_eq_some_of_first {α : Type} (p : α → Bool) (l : List α) (a : α)
    (i : Nat) (hi : l[i]? = some a) (hp : p a = true)
    (hlt : ∀ k b, k < i → l[k]? = some b → p b = false) :
    l.find? p = some a := by
  induction l generalizing i with
  | nil => simp at hi
  | cons hd tl ih =>
    rw [List.find?_cons]
    cases i with
    | zero =>
      simp only [List.getElem?_cons_zero, Option.some.injEq] at hi
      rw [hi, hp]
    | succ n =>
      have hhd : p hd = false := hlt 0 hd (Nat.succ_pos n) (by simp)
      rw [hhd]
      exact ih n (by simpa using hi) (fun k b hk hb =>
        hlt (k + 1) b (by omega) (by simpa using hb))

lemma indexOf_eq_of_first {α : Type} [DecidableEq α] (l : List α) (a : α)
    (i : Nat) (hi : l[i]? = some a)
    (hlt : ∀ k b, k < i → l[k]? = some b → b ≠ a) :
    l.indexOf a = i := by
  induction l generalizing i with
  | nil => simp at hi
  | cons hd tl ih =>
    cases i with
    | zero =>
      simp only [List.getElem?_cons_zero, Option.some.injEq] at hi
      rw [List.indexOf_cons, hi]
      simp
    | succ n =>
      have hne : hd ≠ a := hlt 0 hd (Nat.succ_pos n) (by simp)
      rw [List.indexOf_cons]
      have : (hd == a) = false := by simpa using hne
      rw [this]
      simp only [cond_false]
      have := ih n (by simpa using hi) (fun k b hk hb =>
        hlt (k + 1) b (by omega) (by simpa using hb))
      omega

/-- What `find_present_in_list_by_id` returning `.ok (ps, found, i)` means:
the user's list is `ps`, the element at `i` is `found`, its id is the
searched id, and no earlier element carries that id. -/
def FoundAt (ps : List Present) (pid : Int) (found : Present) (i : Nat) :
    Prop :=
  ps[i]? = some found ∧ found.id = pid ∧
    ∀ k q, k < i → ps[k]? = some q → q.id ≠ pid

lemma find_present_ok_iff (s : StoreState) (u : String) (pid : Int)
    (ps : List Present) (found : Present) (i : Nat) :
    find_present_in_list_by_id s u pid = .ok (ps, found, i) ↔
      s.get_presents u = some ps ∧ FoundAt ps pid found i := by
  constructor
  · intro h
    unfold find_present_in_list_by_id at h
    split at h
    · exact absurd h (by simp)
    · rename_i ps' hg
      split at h
      · exact absurd h (by simp)
      · rename_i found' hf
        simp only [Except.ok.injEq, Prod.mk.injEq] at h
        obtain ⟨hps, hfound, hidx⟩ := h
        subst hps; subst hfound; subst hidx
        obtain ⟨j, hj, hpj, hjlt⟩ := find?_first_spec _ _ _ hf
        have hfid : found'.id = pid := by simpa using hpj
        have hidxj : ps'.indexOf found' = j := by
          refine indexOf_eq_of_first ps' found' j hj ?_
          intro k b hk hb hba
          have hbid : b.id ≠ pid := by simpa using hjlt k b hk hb
          exact hbid (hba ▸ hfid)
        rw [hidxj]
        exact ⟨hg, hj, hfid, fun k q hk hq => by
          simpa using hjlt k q hk hq⟩
  · rintro ⟨hg, hj, hfid, hjlt⟩
    have hf : ps.find? (fun p => p.id == pid) = some found := by
      refine find?_eq_some_of_first _ ps found i hj (by simpa using hfid) ?_
      intro k b hk hb
      simpa using hjlt k b hk hb
    have hidx : ps.indexOf found = i := by
      refine indexOf_eq_of_first ps found i hj ?_
      intro k b hk hb hba
      exact (hjlt k b hk hb) (hba ▸ hfid)
    simp only [find_present_in_list_by_id, hg, hf, hidx]

lemma FoundAt.lt_length {ps : List Present} {pid : Int} {found : Present}
    {i : Nat} (h : FoundAt ps pid found i) : i < ps.length := by
  have := h.1
  by_contra hge
  rw [List.getElem?_eq_none (by omega)] at this
  exact absurd this (by simp)

/-! ## Shape lemmas for the operations -/

lemma find_present_none (s : StoreState) (u : String) (pid : Int)
    (h : s.get_presents u = none) :
    find_present_in_list_by_id s u pid = .error .noneCrash := by
  simp only [find_present_in_list_by_id, h]

lemma update_present_error (s : StoreState) (u : String) (pid : Int)
    (d : PresentWishData) (e : ServiceError)
    (h : find_present_in_list_by_id s u pid = .error e) :
    update_present s u pid d = (.error e, s) := by
  simp only [update_present, h]

lemma delete_present_error (s : StoreState) (u : String) (pid : Int)
    (e : ServiceError)
    (h : find_present_in_list_by_id s u pid = .error e) :
    delete_present s u pid = (.error e, s) := by
  simp only [delete_present, h]

lemma assign_error (s : StoreState) (u : String) (pid : Int) (g : String)
    (e : ServiceError)
    (h : find_present_in_list_by_id s u pid = .error e) :
    assign_user_to_present s u pid g = (.error e, s) := by
  simp only [assign_user_to_present, h]

lemma remove_error (s : StoreState) (u : String) (pid : Int) (g : String)
    (e : ServiceError)
    (h : find_present_in_list_by_id s u pid = .error e) :
    remove_user_from_present s u pid g = (.error e, s) := by
  simp only [remove_user_from_present, h]

lemma update_present_ok (s : StoreState) (u : String) (pid : Int)
    (d : PresentWishData) (ps : List Present) (found : Present) (i : Nat)
    (h : find_present_in_list_by_id s u pid = .ok (ps, found, i)) :
    update_present s u pid d =
      (.ok ((ps.set i (d.to_present found.assigned_to)).map
          Present.to_present_wish_response),
       s.upsert_presents u (ps.set i (d.to_present found.assigned_to))) := by
  simp only [update_present, h]

lemma delete_present_ok (s : StoreState) (u : String) (pid : Int)
    (ps : List Present) (found : Present) (i : Nat)
    (h : find_present_in_list_by_id s u pid = .ok (ps, found, i)) :
    delete_present s u pid =
      (.ok ((ps.eraseIdx i).map Present.to_present_wish_response),
       s.upsert_presents u (ps.eraseIdx i)) := by
  simp only [delete_present, h]

lemma assign_ok_mem (s : StoreState) (u : String) (pid : Int) (g : String)
    (ps : List Present) (found : Present) (i : Nat)
    (h : find_present_in_list_by_id s u pid = .ok (ps, found, i))
    (hg : g ∈ found.assigned_to) :
    assign_user_to_present s u pid g =
      (.ok (ps.map Present.to_present_gift_response), s) := by
  simp only [assign_user_to_present, h, if_pos hg]

lemma assign_ok_not_mem (s : StoreState) (u : String) (pid : Int) (g : String)
    (ps : List Present) (found : Present) (i : Nat)
    (h : find_present_in_list_by_id s u pid = .ok (ps, found, i))
    (hg : g ∉ found.assigned_to) :
    assign_user_to_present s u pid g =
      (.ok ((ps.set i { found with assigned_to := found.assigned_to ++ [g] }).map
          Present.to_present_gift_response),
       s.upsert_presents u
         (ps.set i { found with assigned_to := found.assigned_to ++ [g] })) := by
  simp only [assign_user_to_present, h, if_neg hg]

lemma remove_ok_mem (s : StoreState) (u : String) (pid : Int) (g : String)
    (ps : List Present) (found : Present) (i : Nat)
    (h : find_present_in_list_by_id s u pid = .ok (ps, found, i))
    (hg : g ∈ found.assigned_to) :
    remove_user_from_present s u pid g =
      (.ok ((ps.set i { found with assigned_to := found.assigned_to.erase g }).map
          Present.to_present_gift_response),
       s.upsert_presents u
         (ps.set i { found with assigned_to := found.assigned_to.erase g })) := by
  simp only [remove_user_from_present, h, if_pos hg]

lemma remove_ok_not_mem (s : StoreState) (u : String) (pid : Int) (g : String)
    (ps : List Present) (found : Present) (i : Nat)
    (h : find_present_in_list_by_id s u pid = .ok (ps, found, i))
    (hg : g ∉ found.assigned_to) :
    remove_user_from_present s u pid g =
      (.ok (ps.map Present.to_present_gift_response), s) := by
  simp only [remove_user_from_present, h, if_neg hg]

lemma create_present_user_absent (s : StoreState) (u : String)
    (d : PresentCreateData) (h : s.get_user u = none) :
    create_present s u d = (.error .noneCrash, s) := by
  simp only [create_present, h]

lemma create_present_list_absent (s : StoreState) (u : String)
    (d : PresentCreateData) (usr : User) (husr : s.get_user u = some usr)
    (hp : s.get_presents u = none) :
    create_present s u d =
      (.error .noneCrash,
       s.upsert_user { usr with present_id := usr.present_id + 1 }) := by
  simp only [create_present, husr, get_presents_upsert_user, hp]

lemma create_present_ok (s : StoreState) (u : String) (d : PresentCreateData)
    (usr : User) (ps : List Present) (husr : s.get_user u = some usr)
    (hp : s.get_presents u = some ps) :
    create_present s u d =
      (.ok ((ps ++ [d.to_present usr.present_id []]).map
          Present.to_present_wish_response),
       (s.upsert_user { usr with present_id := usr.present_id + 1 }).upsert_presents
         u (ps ++ [d.to_present usr.present_id []])) := by
  simp only [create_present, husr, get_presents_upsert_user, hp]

lemma find_present_after_set (s : StoreState) (u : String) (pid : Int)
    (ps : List Present) (found : Present) (i : Nat) (newP : Present)
    (h : find_present_in_list_by_id s u pid = .ok (ps, found, i))
    (hid : newP.id = pid) :
    find_present_in_list_by_id (s.upsert_presents u (ps.set i newP)) u pid =
      .ok (ps.set i newP, newP, i) := by
  rw [find_present_ok_iff] at h
  obtain ⟨hg, hj, hfid, hlt⟩ := h
  have hilen : i < ps.length := FoundAt.lt_length ⟨hj, hfid, hlt⟩
  rw [find_present_ok_iff]
  refine ⟨get_presents_upsert_presents_self s u _, ?_, hid, ?_⟩
  · exact List.getElem?_set_self hilen
  · intro k q hk hkq
    rw [List.getElem?_set_ne (by omega)] at hkq
    exact hlt k q hk hkq

lemma find?_of_FoundAt (ps : List Present) (pid : Int) (found : Present)
    (i : Nat) (h : FoundAt ps pid found i) :
    ps.find? (fun p => p.id == pid) = some found := by
  obtain ⟨hj, hfid, hlt⟩ := h
  refine find?_eq_some_of_first _ ps found i hj (by simpa using hfid) ?_
  intro k b hk hb
  simpa using hlt k b hk hb

/-! ## Claim theorems -/

/-- **C1.**  For a user name whose present list is absent from the store,
`update_present`, `delete_present`, `assign_user_to_present` and
`remove_user_from_present` all fail with the uncaught-`TypeError` crash
(`noneCrash`, a 500), not with the `UserNotFound` error the spec promises;
the store is left unchanged. -/
theorem mutating_ops_crash_when_list_absent (s : StoreState) (u : String)
    (pid : Int) (d : PresentWishData) (g : String)
    (h : s.get_presents u = none) :
    update_present s u pid d = (.error .noneCrash, s) ∧
    delete_present s u pid = (.error .noneCrash, s) ∧
    assign_user_to_present s u pid g = (.error .noneCrash, s) ∧
    remove_user_from_present s u pid g = (.error .noneCrash, s) ∧
    ServiceError.noneCrash ≠ ServiceError.userNotFound := by
  have hf := find_present_none s u pid h
  exact ⟨update_present_error s u pid d _ hf, delete_present_error s u pid _ hf,
    assign_error s u pid g _ hf, remove_error s u pid g _ hf, by decide⟩

theorem mutating_ops_crash_when_list_absent_witness :
    (⟨[], []⟩ : StoreState).get_presents "carol" = none ∧
    (update_present ⟨[], []⟩ "carol" 1 { id := 1, title := "Book" } =
        (.error .noneCrash, ⟨[], []⟩) ∧
      delete_present ⟨[], []⟩ "carol" 1 = (.error .noneCrash, ⟨[], []⟩) ∧
      assign_user_to_present ⟨[], []⟩ "carol" 1 "bob" =
        (.error .noneCrash, ⟨[], []⟩) ∧
      remove_user_from_present ⟨[], []⟩ "carol" 1 "bob" =
        (.error .noneCrash, ⟨[], []⟩) ∧
      ServiceError.noneCrash ≠ ServiceError.userNotFound) :=
  ⟨rfl, mutating_ops_crash_when_list_absent ⟨[], []⟩ "carol" 1
    { id := 1, title := "Book" } "bob" rfl⟩

/-- **C2.**  `create_present` on a name with no user record fails with the
uncaught-`AttributeError` crash (`noneCrash`, a 500), not with the
`UserNotFound` error the spec promises; the store is left unchanged. -/
theorem create_present_crash_when_user_absent (s : StoreState) (u : String)
    (d : PresentCreateData) (h : s.get_user u = none) :
    create_present s u d = (.error .noneCrash, s) ∧
    ServiceError.noneCrash ≠ ServiceError.userNotFound :=
  ⟨create_present_user_absent s u d h, by decide⟩

theorem create_present_crash_when_user_absent_witness :
    (⟨[], []⟩ : StoreState).get_user "carol" = none ∧
    (create_present ⟨[], []⟩ "carol" { title := "Book" } =
        (.error .noneCrash, ⟨[], []⟩) ∧
      ServiceError.noneCrash ≠ ServiceError.userNotFound) :=
  ⟨rfl, create_present_crash_when_user_absent ⟨[], []⟩ "carol"
    { title := "Book" } rfl⟩

/-- **C6.**  The wish view contains no `assigned_to` component: it is fully
determined by `id`/`title`/`description`/`link`/`price`/`favourite`, so two
presents differing only in `assigned_to` have identical wish views, and the
wish-list operation returns exactly these projections. -/
theorem wish_view_reveals_no_assignment :
    (∀ (p : Present) (l : List String),
        Present.to_present_wish_response { p with assigned_to := l } =
          Present.to_present_wish_response p) ∧
    ∀ (s : StoreState) (u : String) (ps : List Present),
      s.get_presents u = some ps →
        get_user_present_wish_list s u =
          .ok (ps.map Present.to_present_wish_response) := by
  refine ⟨fun p l => rfl, fun s u ps h => ?_⟩
  simp only [get_user_present_wish_list, h]

theorem wish_view_reveals_no_assignment_witness :
    Present.to_present_wish_response
        { id := 1, title := "Book", assigned_to := ["bob"] } =
      Present.to_present_wish_response { id := 1, title := "Book" } ∧
    get_user_present_wish_list
        ⟨[], [("alice", [{ id := 1, title := "Book", assigned_to := ["bob"] }])]⟩
        "alice" =
      .ok ([({ id := 1, title := "Book", assigned_to := ["bob"] } : Present)].map
        Present.to_present_wish_response) :=
  ⟨wish_view_reveals_no_assignment.1 { id := 1, title := "Book" } ["bob"],
   wish_view_reveals_no_assignment.2
     ⟨[], [("alice", [{ id := 1, title := "Book", assigned_to := ["bob"] }])]⟩
     "alice" [{ id := 1, title := "Book", assigned_to := ["bob"] }] rfl⟩

/-- **C9.**  A counterexample to "no operation ever leaves the store in a
partially written state": on a store where `alice` has a user record but no
present-list entry, `create_present` persists the incremented
`present_id` counter (its first write) and then crashes before the
present-list write, so exactly one of its two writes is applied. -/
theorem create_present_partial_write_cex :
    create_present ⟨[("alice", aliceUser 1)], []⟩ "alice" { title := "Book" } =
      (.error .noneCrash, ⟨[("alice", aliceUser 2)], []⟩) ∧
    (⟨[("alice", aliceUser 1)], []⟩ : StoreState) ≠
      ⟨[("alice", aliceUser 2)], []⟩ := by
  exact ⟨rfl, by decide⟩

/-- **C3.**  Counterexample: `update_present` of present 1 with a payload
carrying id 99 stores id 99 at that present's position — the stored id is
taken from the caller's payload, refuting "still has id p / never taken
from the caller's payload". -/
theorem update_present_payload_id_cex :
    (((update_present ⟨[], [("alice", [{ id := 1, title := "Book" }])]⟩
          "alice" 1 { id := 99, title := "Pen" }).2.get_presents
        "alice").getD []).map Present.id = [99] ∧ ((99 : Int) = 1 → False) := by
  exact ⟨rfl, by decide⟩

/-- **C3** (amended).  The present stored at the position of `p` by
`update_present(u, p, d)` is `d.to_present(found.assigned_to)`, whose id is
`d.id` — the payload's id — so it still has id `p` exactly when the caller's
payload carries `d.id = p`. -/
theorem update_present_id_from_payload (s : StoreState) (u : String)
    (pid : Int) (d : PresentWishData) (ps : List Present) (found : Present)
    (i : Nat) (h : find_present_in_list_by_id s u pid = .ok (ps, found, i)) :
    ∃ ps2, (update_present s u pid d).2.get_presents u = some ps2 ∧
      ps2[i]? = some (d.to_present found.assigned_to) ∧
      (d.to_present found.assigned_to).id = d.id ∧
      (update_present s u pid d).1 =
        .ok (ps2.map Present.to_present_wish_response) := by
  have hupd := update_present_ok s u pid d ps found i h
  have hilen : i < ps.length := by
    rw [find_present_ok_iff] at h
    exact FoundAt.lt_length h.2
  refine ⟨ps.set i (d.to_present found.assigned_to), ?_, ?_, rfl, ?_⟩
  · rw [hupd]; exact get_presents_upsert_presents_self s u _
  · exact List.getElem?_set_self hilen
  · rw [hupd]

theorem update_present_id_from_payload_witness :
    (find_present_in_list_by_id ⟨[], [("alice", [{ id := 1, title := "Book" }])]⟩
        "alice" 1 =
      .ok ([{ id := 1, title := "Book" }], { id := 1, title := "Book" }, 0)) ∧
    ∃ ps2, (update_present ⟨[], [("alice", [{ id := 1, title := "Book" }])]⟩
        "alice" 1 { id := 99, title := "Pen" }).2.get_presents "alice" = some ps2 ∧
      ps2[0]? = some (PresentWishData.to_present { id := 99, title := "Pen" } []) ∧
      (PresentWishData.to_present { id := 99, title := "Pen" } []).id = 99 ∧
      (update_present ⟨[], [("alice", [{ id := 1, title := "Book" }])]⟩
          "alice" 1 { id := 99, title := "Pen" }).1 =
        .ok (ps2.map Present.to_present_wish_response) :=
  ⟨rfl, update_present_id_from_payload
    ⟨[], [("alice", [{ id := 1, title := "Book" }])]⟩ "alice" 1
    { id := 99, title := "Pen" } [{ id := 1, title := "Book" }]
    { id := 1, title := "Book" } 0 rfl⟩

/-- **C4.**  Counterexample: updating the present with id 1 (gifter `bob`
assigned) by a payload carrying id 2 leaves the store with **no** present of
id 1 at all, so "the stored present with id P.id has exactly the same
assigned_to set as P had" fails as stated. -/
theorem update_present_assigned_to_cex :
    (((update_present
          ⟨[], [("alice", [{ id := 1, title := "Book", assigned_to := ["bob"] }])]⟩
          "alice" 1 { id := 2, title := "Pen" }).2.get_presents
        "alice").getD []).find? (fun p => p.id == 1) = none := by
  decide

/-- **C4** (amended).  When the update payload carries the present's own id
(`d.id = p`, the normal flow — the counterexample forces this restriction),
the stored present found under id `p` after `update_present(u, p, d)` has
exactly the `assigned_to` list the present had before the update:
`merge_update` passes `found.assigned_to` through untouched. -/
theorem update_present_preserves_assigned_to (s : StoreState) (u : String)
    (pid : Int) (d : PresentWishData) (ps : List Present) (found : Present)
    (i : Nat) (h : find_present_in_list_by_id s u pid = .ok (ps, found, i))
    (hd : d.id = pid) :
    ∃ ps2, (update_present s u pid d).2.get_presents u = some ps2 ∧
      ps2.find? (fun p => p.id == pid) = some (d.to_present found.assigned_to) ∧
      (d.to_present found.assigned_to).assigned_to = found.assigned_to := by
  have hupd := update_present_ok s u pid d ps found i h
  have hfa : find_present_in_list_by_id
      (s.upsert_presents u (ps.set i (d.to_present found.assigned_to))) u pid =
      .ok (ps.set i (d.to_present found.assigned_to),
        d.to_present found.assigned_to, i) :=
    find_present_after_set s u pid ps found i _ h hd
  rw [find_present_ok_iff] at hfa
  refine ⟨ps.set i (d.to_present found.assigned_to), ?_, ?_, rfl⟩
  · rw [hupd]; exact get_presents_upsert_presents_self s u _
  · exact find?_of_FoundAt _ pid _ i hfa.2

theorem update_present_preserves_assigned_to_witness :
    (find_present_in_list_by_id
        ⟨[], [("alice", [{ id := 1, title := "Book", assigned_to := ["bob"] }])]⟩
        "alice" 1 =
      .ok ([{ id := 1, title := "Book", assigned_to := ["bob"] }],
        { id := 1, title := "Book", assigned_to := ["bob"] }, 0)) ∧
    ((1 : Int) = 1) ∧
    ∃ ps2, (update_present
        ⟨[], [("alice", [{ id := 1, title := "Book", assigned_to := ["bob"] }])]⟩
        "alice" 1 { id := 1, title := "Pen" }).2.get_presents "alice" = some ps2 ∧
      ps2.find? (fun p => p.id == 1) =
        some (PresentWishData.to_present { id := 1, title := "Pen" } ["bob"]) ∧
      (PresentWishData.to_present { id := 1, title := "Pen" } ["bob"]).assigned_to =
        ["bob"] :=
  ⟨rfl, rfl, update_present_preserves_assigned_to
    ⟨[], [("alice", [{ id := 1, title := "Book", assigned_to := ["bob"] }])]⟩
    "alice" 1 { id := 1, title := "Pen" }
    [{ id := 1, title := "Book", assigned_to := ["bob"] }]
    { id := 1, title := "Book", assigned_to := ["bob"] } 0 rfl rfl⟩

/-- **C5.**  `assign_user_to_present` and `remove_user_from_present` are
idempotent: with the present's `assigned_to` duplicate-free (the data-model
invariant), calling either twice with the same `(u, p, g)` returns the same
result and final state as calling it once, without error; after an assign
the present's `assigned_to` holds the gifter exactly once, and removing a
gifter that is not assigned returns the list and state unchanged. -/
theorem assign_remove_idempotent (s : StoreState) (u : String) (pid : Int)
    (g : String) (ps : List Present) (found : Present) (i : Nat)
    (h : find_present_in_list_by_id s u pid = .ok (ps, found, i))
    (hnd : found.assigned_to.Nodup) :
    assign_user_to_present (assign_user_to_present s u pid g).2 u pid g =
      assign_user_to_present s u pid g ∧
    remove_user_from_present (remove_user_from_present s u pid g).2 u pid g =
      remove_user_from_present s u pid g ∧
    (∃ ps1 p1, (assign_user_to_present s u pid g).2.get_presents u = some ps1 ∧
      ps1.find? (fun p => p.id == pid) = some p1 ∧ p1.assigned_to.count g = 1) ∧
    (g ∉ found.assigned_to →
      remove_user_from_present s u pid g =
        (.ok (ps.map Present.to_present_gift_response), s)) := by
  have hiff := (find_present_ok_iff s u pid ps found i).mp h
  have hfid : found.id = pid := hiff.2.2.1
  by_cases hg : g ∈ found.assigned_to
  · have ha := assign_ok_mem s u pid g ps found i h hg
    refine ⟨by rw [ha]; exact ha, ?_, ?_, fun hng => absurd hg hng⟩
    · have hr := remove_ok_mem s u pid g ps found i h hg
      rw [hr]
      have hfind2 : find_present_in_list_by_id
          (s.upsert_presents u
            (ps.set i { found with assigned_to := found.assigned_to.erase g })) u
          pid =
          .ok (ps.set i { found with assigned_to := found.assigned_to.erase g },
            { found with assigned_to := found.assigned_to.erase g }, i) :=
        find_present_after_set s u pid ps found i _ h hfid
      exact remove_ok_not_mem _ u pid g _ _ i hfind2 hnd.not_mem_erase
    · rw [ha]
      exact ⟨ps, found, hiff.1, find?_of_FoundAt ps pid found i hiff.2,
        List.count_eq_one_of_mem hnd hg⟩
  · have ha := assign_ok_not_mem s u pid g ps found i h hg
    have hfind2 : find_present_in_list_by_id
        (s.upsert_presents u
          (ps.set i { found with assigned_to := found.assigned_to ++ [g] })) u
        pid =
        .ok (ps.set i { found with assigned_to := found.assigned_to ++ [g] },
          { found with assigned_to := found.assigned_to ++ [g] }, i) :=
      find_present_after_set s u pid ps found i _ h hfid
    have hmem2 : g ∈ found.assigned_to ++ [g] := by simp
    refine ⟨?_, ?_, ?_, fun _ => remove_ok_not_mem s u pid g ps found i h hg⟩
    · rw [ha]
      exact assign_ok_mem _ u pid g _ _ i hfind2 hmem2
    · have hr := remove_ok_not_mem s u pid g ps found i h hg
      rw [hr]
      exact hr
    · rw [ha]
      have hiff2 := (find_present_ok_iff _ u pid _ _ i).mp hfind2
      refine ⟨ps.set i { found with assigned_to := found.assigned_to ++ [g] },
        { found with assigned_to := found.assigned_to ++ [g] },
        hiff2.1, find?_of_FoundAt _ pid _ i hiff2.2, ?_⟩
      simp [List.count_append, List.count_eq_zero.mpr hg]

theorem assign_remove_idempotent_witness :
    (find_present_in_list_by_id ⟨[], [("alice", [{ id := 1, title := "Book" }])]⟩
        "alice" 1 =
      .ok ([{ id := 1, title := "Book" }], { id := 1, title := "Book" }, 0)) ∧
    (([] : List String).Nodup) ∧
    (assign_user_to_present
        (assign_user_to_present ⟨[], [("alice", [{ id := 1, title := "Book" }])]⟩
          "alice" 1 "bob").2 "alice" 1 "bob" =
      assign_user_to_present ⟨[], [("alice", [{ id := 1, title := "Book" }])]⟩
        "alice" 1 "bob" ∧
    remove_user_from_present
        (remove_user_from_present ⟨[], [("alice", [{ id := 1, title := "Book" }])]⟩
          "alice" 1 "bob").2 "alice" 1 "bob" =
      remove_user_from_present ⟨[], [("alice", [{ id := 1, title := "Book" }])]⟩
        "alice" 1 "bob" ∧
    (∃ ps1 p1, (assign_user_to_present
          ⟨[], [("alice", [{ id := 1, title := "Book" }])]⟩
          "alice" 1 "bob").2.get_presents "alice" = some ps1 ∧
      ps1.find? (fun p => p.id == 1) = some p1 ∧ p1.assigned_to.count "bob" = 1) ∧
    ("bob" ∉ ([] : List String) →
      remove_user_from_present ⟨[], [("alice", [{ id := 1, title := "Book" }])]⟩
          "alice" 1 "bob" =
        (.ok ([({ id := 1, title := "Book" } : Present)].map
            Present.to_present_gift_response),
          ⟨[], [("alice", [{ id := 1, title := "Book" }])]⟩))) :=
  ⟨rfl, by decide,
    assign_remove_idempotent ⟨[], [("alice", [{ id := 1, title := "Book" }])]⟩
      "alice" 1 "bob" [{ id := 1, title := "Book" }] { id := 1, title := "Book" }
      0 rfl (by decide)⟩

/-- **C10.**  `assign_user_to_present` and `remove_user_from_present` change
at most the `assigned_to` of the present with the given id: the users table
(including the owner's counter) is untouched, other users' present lists are
untouched, the list keeps its length, every other position is unchanged, and
the touched present keeps its position and all fields except `assigned_to`. -/
theorem assign_remove_touch_only_assigned_to (s : StoreState) (u : String)
    (pid : Int) (g : String) (ps : List Present) (found : Present) (i : Nat)
    (h : find_present_in_list_by_id s u pid = .ok (ps, found, i)) :
    ((assign_user_to_present s u pid g).2.users = s.users ∧
      (∀ v, v ≠ u →
        (assign_user_to_present s u pid g).2.get_presents v = s.get_presents v) ∧
      ∃ ps2, (assign_user_to_present s u pid g).2.get_presents u = some ps2 ∧
        ps2.length = ps.length ∧ (∀ k, k ≠ i → ps2[k]? = ps[k]?) ∧
        ∃ p2, ps2[i]? = some p2 ∧ p2.id = found.id ∧ p2.title = found.title ∧
          p2.description = found.description ∧ p2.link = found.link ∧
          p2.price = found.price ∧ p2.favourite = found.favourite) ∧
    ((remove_user_from_present s u pid g).2.users = s.users ∧
      (∀ v, v ≠ u →
        (remove_user_from_present s u pid g).2.get_presents v = s.get_presents v) ∧
      ∃ ps2, (remove_user_from_present s u pid g).2.get_presents u = some ps2 ∧
        ps2.length = ps.length ∧ (∀ k, k ≠ i → ps2[k]? = ps[k]?) ∧
        ∃ p2, ps2[i]? = some p2 ∧ p2.id = found.id ∧ p2.title = found.title ∧
          p2.description = found.description ∧ p2.link = found.link ∧
          p2.price = found.price ∧ p2.favourite = found.favourite) := by
  have hiff := (find_present_ok_iff s u pid ps found i).mp h
  have hilen : i < ps.length := FoundAt.lt_length hiff.2
  constructor
  · by_cases hg : g ∈ found.assigned_to
    · rw [assign_ok_mem s u pid g ps found i h hg]
      exact ⟨rfl, fun v _ => rfl,
        ps, hiff.1, rfl, fun k _ => rfl,
        found, hiff.2.1, rfl, rfl, rfl, rfl, rfl, rfl⟩
    · rw [assign_ok_not_mem s u pid g ps found i h hg]
      refine ⟨rfl, fun v hv => get_presents_upsert_presents_ne s u v _ hv,
        ps.set i { found with assigned_to := found.assigned_to ++ [g] },
        get_presents_upsert_presents_self s u _, List.length_set ps i _,
        fun k hk => List.getElem?_set_ne (fun he => hk he.symm),
        { found with assigned_to := found.assigned_to ++ [g] },
        List.getElem?_set_self hilen, rfl, rfl, rfl, rfl, rfl, rfl⟩
  · by_cases hg : g ∈ found.assigned_to
    · rw [remove_ok_mem s u pid g ps found i h hg]
      refine ⟨rfl, fun v hv => get_presents_upsert_presents_ne s u v _ hv,
        ps.set i { found with assigned_to := found.assigned_to.erase g },
        get_presents_upsert_presents_self s u _, List.length_set ps i _,
        fun k hk => List.getElem?_set_ne (fun he => hk he.symm),
        { found with assigned_to := found.assigned_to.erase g },
        List.getElem?_set_self hilen, rfl, rfl, rfl, rfl, rfl, rfl⟩
    · rw [remove_ok_not_mem s u pid g ps found i h hg]
      exact ⟨rfl, fun v _ => rfl,
        ps, hiff.1, rfl, fun k _ => rfl,
        found, hiff.2.1, rfl, rfl, rfl, rfl, rfl, rfl⟩

theorem assign_remove_touch_only_assigned_to_witness :
    (find_present_in_list_by_id
        ⟨[("alice", aliceUser 5)],
          [("alice", [{ id := 1, title := "Book" }, { id := 2, title := "Pen" }])]⟩
        "alice" 2 =
      .ok ([{ id := 1, title := "Book" }, { id := 2, title := "Pen" }],
        { id := 2, title := "Pen" }, 1)) ∧
    (((assign_user_to_present
          ⟨[("alice", aliceUser 5)],
            [("alice", [{ id := 1, title := "Book" }, { id := 2, title := "Pen" }])]⟩
          "alice" 2 "bob").2.users =
        [("alice", aliceUser 5)]) ∧
      ∃ ps2, (assign_user_to_present
          ⟨[("alice", aliceUser 5)],
            [("alice", [{ id := 1, title := "Book" }, { id := 2, title := "Pen" }])]⟩
          "alice" 2 "bob").2.get_presents "alice" = some ps2 ∧
        ps2.length = 2 ∧ ps2[0]? = some { id := 1, title := "Book" }) := by
  refine ⟨rfl, ?_⟩
  have hmain := assign_remove_touch_only_assigned_to
    ⟨[("alice", aliceUser 5)],
      [("alice", [{ id := 1, title := "Book" }, { id := 2, title := "Pen" }])]⟩
    "alice" 2 "bob" [{ id := 1, title := "Book" }, { id := 2, title := "Pen" }]
    { id := 2, title := "Pen" } 1 rfl
  obtain ⟨⟨husers, _, ps2, hps2, hlen, hother, _⟩, _⟩ := hmain
  exact ⟨husers, ps2, hps2, by rw [hlen]; rfl, by rw [hother 0 (by decide)]; simp⟩

/-! ## Invariants (§3) and their preservation -/

/-- The list invariants of §3: present ids pairwise distinct and every
`assigned_to` duplicate-free. -/
def listInv (ps : List Present) : Prop :=
  (ps.map Present.id).Nodup ∧ ∀ p ∈ ps, p.assigned_to.Nodup

/-- The inductive store invariant: user records are keyed by their own
`name`, every present list satisfies `listInv`, and the owner's counter
`present_id` exceeds every id in the owner's list (the strengthening that
makes `listInv` inductive under `create_present`). -/
def StateInv (s : StoreState) : Prop :=
  (∀ name usr, s.get_user name = some usr → usr.name = name) ∧
  ∀ name ps, s.get_presents name = some ps →
    listInv ps ∧
      ∀ usr, s.get_user name = some usr → ∀ p ∈ ps, p.id < usr.present_id

/-- One registry mutation with a well-formed update payload
(`d.id = pid`): the step relation of the mutating operations. -/
inductive RegistryStep : StoreState → StoreState → Prop where
  | create (s : StoreState) (u : String) (d : PresentCreateData) :
      RegistryStep s (create_present s u d).2
  | update (s : StoreState) (u : String) (pid : Int) (d : PresentWishData)
      (hd : d.id = pid) : RegistryStep s (update_present s u pid d).2
  | delete (s : StoreState) (u : String) (pid : Int) :
      RegistryStep s (delete_present s u pid).2
  | assign (s : StoreState) (u : String) (pid : Int) (g : String) :
      RegistryStep s (assign_user_to_present s u pid g).2
  | remove (s : StoreState) (u : String) (pid : Int) (g : String) :
      RegistryStep s (remove_user_from_present s u pid g).2

lemma get_user_upsert_user (s : StoreState) (v : User) (name : String) :
    (s.upsert_user v).get_user name =
      if v.name = name then some v else s.get_user name := by
  by_cases h : name = v.name
  · subst h
    rw [get_user_upsert_user_self, if_pos rfl]
  · rw [get_user_upsert_user_ne s v name h, if_neg (fun he => h he.symm)]

lemma set_same {α : Type} (l : List α) (i : Nat) (a : α) (h : l[i]? = some a) :
    l.set i a = l := by
  induction l generalizing i with
  | nil => simp at h
  | cons hd tl ih =>
    cases i with
    | zero =>
      simp only [List.getElem?_cons_zero, Option.some.injEq] at h
      rw [h]
      rfl
    | succ n =>
      simp only [List.getElem?_cons_succ] at h
      simp [List.set, ih n h]

lemma nodup_append_single {α : Type} (l : List α) (a : α) (hl : l.Nodup)
    (ha : a ∉ l) : (l ++ [a]).Nodup := by
  rw [List.nodup_append]
  refine ⟨hl, List.nodup_singleton a, ?_⟩
  intro x hx hxa
  rw [List.mem_singleton] at hxa
  subst hxa
  exact ha hx

lemma stateInv_upsert_presents (s : StoreState) (u : String)
    (qs : List Present) (hs : StateInv s) (hinv : listInv qs)
    (hctr : ∀ usr, s.get_user u = some usr → ∀ p ∈ qs, p.id < usr.present_id) :
    StateInv (s.upsert_presents u qs) := by
  refine ⟨fun name usr h => hs.1 name usr h, ?_⟩
  intro name ps h
  by_cases hn : name = u
  · subst hn
    rw [get_presents_upsert_presents_self] at h
    cases h
    exact ⟨hinv, fun usr hu => hctr usr hu⟩
  · rw [get_presents_upsert_presents_ne s u name qs hn] at h
    exact hs.2 name ps h

/-- The invariant facts `find_present_in_list_by_id`'s success yields under
`StateInv`: the found present is a member, its `assigned_to` is
duplicate-free, and its id is below the owner's counter. -/
lemma stateInv_found (s : StoreState) (u : String) (pid : Int)
    (ps : List Present) (found : Present) (i : Nat) (hs : StateInv s)
    (h : find_present_in_list_by_id s u pid = .ok (ps, found, i)) :
    s.get_presents u = some ps ∧ found ∈ ps ∧ listInv ps := by
  have hiff := (find_present_ok_iff s u pid ps found i).mp h
  exact ⟨hiff.1, List.getElem?_mem hiff.2.1, (hs.2 u ps hiff.1).1⟩

/-- A present list stays invariant when position `i` is overwritten by a
present with the same id and a duplicate-free `assigned_to`. -/
lemma listInv_set (ps : List Present) (i : Nat) (found newP : Present)
    (hinv : listInv ps) (hj : ps[i]? = some found) (hid : newP.id = found.id)
    (hna : newP.assigned_to.Nodup) : listInv (ps.set i newP) := by
  constructor
  · rw [List.map_set]
    have hmap : (ps.map Present.id)[i]? = some found.id := by
      rw [List.getElem?_map, hj]
      rfl
    rw [hid, set_same _ i found.id hmap]
    exact hinv.1
  · intro p hp
    rcases List.mem_or_eq_of_mem_set hp with hmem | heq
    · exact hinv.2 p hmem
    · subst heq
      exact hna

lemma stateInv_set_op (s : StoreState) (u : String) (pid : Int)
    (ps : List Present) (found newP : Present) (i : Nat) (hs : StateInv s)
    (h : find_present_in_list_by_id s u pid = .ok (ps, found, i))
    (hid : newP.id = found.id) (hna : newP.assigned_to.Nodup) :
    StateInv (s.upsert_presents u (ps.set i newP)) := by
  obtain ⟨hg, hmem, hinv⟩ := stateInv_found s u pid ps found i hs h
  have hj : ps[i]? = some found :=
    ((find_present_ok_iff s u pid ps found i).mp h).2.1
  refine stateInv_upsert_presents s u _ hs
    (listInv_set ps i found newP hinv hj hid hna) ?_
  intro usr hu p hp
  rcases List.mem_or_eq_of_mem_set hp with hpm | heq
  · exact (hs.2 u ps hg).2 usr hu p hpm
  · subst heq
    rw [hid]
    exact (hs.2 u ps hg).2 usr hu found hmem

lemma stateInv_update (s : StoreState) (u : String) (pid : Int)
    (d : PresentWishData) (hd : d.id = pid) (hs : StateInv s) :
    StateInv (update_present s u pid d).2 := by
  cases hfind : find_present_in_list_by_id s u pid with
  | error e =>
    rw [update_present_error s u pid d e hfind]
    exact hs
  | ok t =>
    obtain ⟨ps, found, i⟩ := t
    rw [update_present_ok s u pid d ps found i hfind]
    have hfid : found.id = pid :=
      ((find_present_ok_iff s u pid ps found i).mp hfind).2.2.1
    have hmem := (stateInv_found s u pid ps found i hs hfind).2.1
    have hinv := (stateInv_found s u pid ps found i hs hfind).2.2
    exact stateInv_set_op s u pid ps found _ i hs hfind (hd.trans hfid.symm)
      (hinv.2 found hmem)

lemma stateInv_delete (s : StoreState) (u : String) (pid : Int)
    (hs : StateInv s) : StateInv (delete_present s u pid).2 := by
  cases hfind : find_present_in_list_by_id s u pid with
  | error e =>
    rw [delete_present_error s u pid e hfind]
    exact hs
  | ok t =>
    obtain ⟨ps, found, i⟩ := t
    rw [delete_present_ok s u pid ps found i hfind]
    obtain ⟨hg, _, hinv⟩ := stateInv_found s u pid ps found i hs hfind
    have hsub : (ps.eraseIdx i).Sublist ps := List.eraseIdx_sublist ps i
    refine stateInv_upsert_presents s u _ hs ⟨?_, ?_⟩ ?_
    · exact ((hsub.map Present.id).nodup hinv.1)
    · exact fun p hp => hinv.2 p (hsub.subset hp)
    · exact fun usr hu p hp => (hs.2 u ps hg).2 usr hu p (hsub.subset hp)

lemma stateInv_assign (s : StoreState) (u : String) (pid : Int) (g : String)
    (hs : StateInv s) : StateInv (assign_user_to_present s u pid g).2 := by
  cases hfind : find_present_in_list_by_id s u pid with
  | error e =>
    rw [assign_error s u pid g e hfind]
    exact hs
  | ok t =>
    obtain ⟨ps, found, i⟩ := t
    by_cases hg : g ∈ found.assigned_to
    · rw [assign_ok_mem s u pid g ps found i hfind hg]
      exact hs
    · rw [assign_ok_not_mem s u pid g ps found i hfind hg]
      have hmem := (stateInv_found s u pid ps found i hs hfind).2.1
      have hinv := (stateInv_found s u pid ps found i hs hfind).2.2
      exact stateInv_set_op s u pid ps found _ i hs hfind rfl
        (nodup_append_single _ g (hinv.2 found hmem) hg)

lemma stateInv_remove (s : StoreState) (u : String) (pid : Int) (g : String)
    (hs : StateInv s) : StateInv (remove_user_from_present s u pid g).2 := by
  cases hfind : find_present_in_list_by_id s u pid with
  | error e =>
    rw [remove_error s u pid g e hfind]
    exact hs
  | ok t =>
    obtain ⟨ps, found, i⟩ := t
    by_cases hg : g ∈ found.assigned_to
    · rw [remove_ok_mem s u pid g ps found i hfind hg]
      have hmem := (stateInv_found s u pid ps found i hs hfind).2.1
      have hinv := (stateInv_found s u pid ps found i hs hfind).2.2
      exact stateInv_set_op s u pid ps found _ i hs hfind rfl
        ((hinv.2 found hmem).erase g)
    · rw [remove_ok_not_mem s u pid g ps found i hfind hg]
      exact hs

lemma stateInv_upsert_user_incr (s : StoreState) (u : String) (usr : User)
    (husr : s.get_user u = some usr) (hs : StateInv s) :
    StateInv (s.upsert_user { usr with present_id := usr.present_id + 1 }) := by
  have hname : usr.name = u := hs.1 u usr husr
  constructor
  · intro name usr' h
    rw [get_user_upsert_user] at h
    by_cases hb : ({ usr with present_id := usr.present_id + 1 } : User).name = name
    · rw [if_pos hb] at h
      cases h
      exact hb
    · rw [if_neg hb] at h
      exact hs.1 name usr' h
  · intro name ps h
    rw [get_presents_upsert_user] at h
    obtain ⟨hinv, hctr⟩ := hs.2 name ps h
    refine ⟨hinv, ?_⟩
    intro usr' hu p hp
    rw [get_user_upsert_user] at hu
    by_cases hb : ({ usr with present_id := usr.present_id + 1 } : User).name = name
    · rw [if_pos hb] at hu
      cases hu
      have hnb : name = u := by
        rw [← hb]
        exact hname
      subst hnb
      have hplt : p.id < usr.present_id := hctr usr husr p hp
      show p.id < usr.present_id + 1
      omega
    · rw [if_neg hb] at hu
      exact hctr usr' hu p hp

lemma stateInv_create (s : StoreState) (u : String) (d : PresentCreateData)
    (hs : StateInv s) : StateInv (create_present s u d).2 := by
  cases husr : s.get_user u with
  | none =>
    rw [create_present_user_absent s u d husr]
    exact hs
  | some usr =>
    have hname : usr.name = u := hs.1 u usr husr
    have hs1 := stateInv_upsert_user_incr s u usr husr hs
    cases hps : s.get_presents u with
    | none =>
      rw [create_present_list_absent s u d usr husr hps]
      exact hs1
    | some ps =>
      rw [create_present_ok s u d usr ps husr hps]
      obtain ⟨hinv, hctr⟩ := hs.2 u ps hps
      have hlt : ∀ p ∈ ps, p.id < usr.present_id := hctr usr husr
      refine stateInv_upsert_presents _ u _ hs1 ⟨?_, ?_⟩ ?_
      · rw [List.map_append]
        refine nodup_append_single _ _ hinv.1 ?_
        intro hc
        obtain ⟨p, hp, hpid⟩ := List.mem_map.mp hc
        have hdid : (d.to_present usr.present_id []).id = usr.present_id := rfl
        have hplt := hlt p hp
        omega
      · intro p hp
        rcases List.mem_append.mp hp with hpm | hpe
        · exact hinv.2 p hpm
        · rw [List.mem_singleton] at hpe
          subst hpe
          exact List.nodup_nil
      · intro usr' hu p hp
        rw [get_user_upsert_user] at hu
        rw [if_pos
          (show ({ usr with present_id := usr.present_id + 1 } : User).name = u
            from hname)] at hu
        cases hu
        rcases List.mem_append.mp hp with hpm | hpe
        · have hplt := hlt p hpm
          show p.id < usr.present_id + 1
          omega
        · rw [List.mem_singleton] at hpe
          subst hpe
          show usr.present_id < usr.present_id + 1
          omega

/-- **C7.**  Counterexample: from a list satisfying the §3 invariants,
`update_present` with a payload whose id collides with another present's id
produces a list with duplicate ids `[2, 2]`, so the stated invariant set is
not preserved as claimed. -/
theorem registry_invariants_cex :
    listInv [{ id := 1, title := "A" }, { id := 2, title := "B" }] ∧
    (((update_present
          ⟨[], [("alice", [{ id := 1, title := "A" }, { id := 2, title := "B" }])]⟩
          "alice" 1 { id := 2, title := "A" }).2.get_presents "alice").getD
        []).map Present.id = [2, 2] ∧
    ¬ ([2, 2] : List Int).Nodup := by
  refine ⟨?_, rfl, by decide⟩
  unfold listInv
  refine ⟨by decide, ?_⟩
  intro p hp
  rw [List.mem_cons, List.mem_singleton] at hp
  rcases hp with rfl | rfl <;> exact List.nodup_nil

/-- **C7** (amended).  With the invariant strengthened by the counter bound
(owner's `present_id` exceeds every id in the list, records keyed by their
own name) and update payloads carrying the updated present's id
(`d.id = pid`, forced by the id-collision counterexample), every state
reachable by the five mutating operations keeps all present ids pairwise
distinct and every `assigned_to` duplicate-free. -/
theorem registry_ops_preserve_list_invariants (s t : StoreState)
    (hs : StateInv s) (ht : Relation.ReflTransGen RegistryStep s t) :
    ∀ name ps, t.get_presents name = some ps →
      (ps.map Present.id).Nodup ∧ ∀ p ∈ ps, p.assigned_to.Nodup := by
  have hinv : StateInv t := by
    induction ht with
    | refl => exact hs
    | tail hab hbc ih =>
      cases hbc with
      | create u d => exact stateInv_create _ u d ih
      | update u pid d hd => exact stateInv_update _ u pid d hd ih
      | delete u pid => exact stateInv_delete _ u pid ih
      | assign u pid g => exact stateInv_assign _ u pid g ih
      | remove u pid g => exact stateInv_remove _ u pid g ih
  intro name ps h
  exact (hinv.2 name ps h).1

lemma stateInv_aliceBook :
    StateInv ⟨[("alice", aliceUser 5)], [("alice", [{ id := 1, title := "Book" }])]⟩ := by
  constructor
  · intro name usr h
    simp only [StoreState.get_user, lookupA_cons, lookupA_nil] at h
    split at h
    · rename_i hb
      cases h
      have hn : "alice" = name := by simpa using hb
      rw [← hn]
      rfl
    · cases h
  · intro name ps h
    simp only [StoreState.get_presents, lookupA_cons, lookupA_nil] at h
    split at h
    · rename_i hb
      cases h
      have hn : "alice" = name := by simpa using hb
      refine ⟨⟨by decide, ?_⟩, ?_⟩
      · intro p hp
        rw [List.mem_singleton] at hp
        subst hp
        exact List.nodup_nil
      · intro usr hu p hp
        rw [List.mem_singleton] at hp
        subst hp
        rw [← hn] at hu
        have husr : usr = aliceUser 5 :=
          (Option.some.inj (show some (aliceUser 5) = some usr from hu)).symm
        subst husr
        show (1 : Int) < 5
        decide
    · cases h

theorem registry_ops_preserve_list_invariants_witness :
    StateInv ⟨[("alice", aliceUser 5)], [("alice", [{ id := 1, title := "Book" }])]⟩ ∧
    ∀ name ps,
      (⟨[("alice", aliceUser 5)], [("alice", [{ id := 1, title := "Book" }])]⟩ :
          StoreState).get_presents name = some ps →
        (ps.map Present.id).Nodup ∧ ∀ p ∈ ps, p.assigned_to.Nodup :=
  ⟨stateInv_aliceBook,
   registry_ops_preserve_list_invariants _ _ stateInv_aliceBook
     Relation.ReflTransGen.refl⟩

/-! ## Present-id minting (create/delete histories) -/

/-- A create or delete call in an owner's history. -/
inductive RegistryOp where
  | createOp (d : PresentCreateData)
  | deleteOp (pid : Int)

/-- Run one create/delete call for user `u`, keeping the store it leaves. -/
def applyOp (u : String) (s : StoreState) : RegistryOp → StoreState
  | .createOp d => (create_present s u d).2
  | .deleteOp pid => (delete_present s u pid).2

/-- Run a sequence of create/delete calls for user `u`. -/
def applyOps (u : String) (s : StoreState) (ops : List RegistryOp) :
    StoreState :=
  ops.foldl (applyOp u) s

/-- The id a create call would mint now: the owner's `present_id` at call
time, provided the owner's record and list both exist (otherwise the call
crashes and mints nothing). -/
def mintOf (u : String) (s : StoreState) : Option Int :=
  match s.get_user u, s.get_presents u with
  | some usr, some _ => some usr.present_id
  | _, _ => none

/-- The ids minted by the successful creates of `ops`, in call order. -/
def mintsOf (u : String) (s : StoreState) : List RegistryOp → List Int
  | [] => []
  | op :: rest =>
    (match op with
     | .createOp _ => (mintOf u s).toList
     | .deleteOp _ => []) ++ mintsOf u (applyOp u s op) rest

lemma delete_present_users (s : StoreState) (u : String) (pid : Int) :
    (delete_present s u pid).2.users = s.users := by
  cases hf : find_present_in_list_by_id s u pid with
  | error e => rw [delete_present_error s u pid e hf]
  | ok t =>
    obtain ⟨ps, found, i⟩ := t
    rw [delete_present_ok s u pid ps found i hf]
    rfl

lemma get_user_delete (s : StoreState) (u : String) (pid : Int)
    (name : String) :
    (delete_present s u pid).2.get_user name = s.get_user name := by
  unfold StoreState.get_user
  rw [delete_present_users]

lemma create_present_get_user (s : StoreState) (u : String)
    (d : PresentCreateData) (usr : User) (hs : StateInv s)
    (hu : s.get_user u = some usr) :
    (create_present s u d).2.get_user u =
      some { usr with present_id := usr.present_id + 1 } := by
  have hn2 : ({ usr with present_id := usr.present_id + 1 } : User).name = u :=
    hs.1 u usr hu
  cases hp : s.get_presents u with
  | none =>
    rw [create_present_list_absent s u d usr hu hp]
    rw [get_user_upsert_user, if_pos hn2]
  | some ps =>
    rw [create_present_ok s u d usr ps hu hp]
    rw [get_user_upsert_presents, get_user_upsert_user, if_pos hn2]

lemma applyOp_stateInv (u : String) (s : StoreState) (op : RegistryOp)
    (hs : StateInv s) : StateInv (applyOp u s op) := by
  cases op with
  | createOp d => exact stateInv_create s u d hs
  | deleteOp pid => exact stateInv_delete s u pid hs

lemma applyOps_stateInv (u : String) (ops : List RegistryOp) :
    ∀ s, StateInv s → StateInv (applyOps u s ops) := by
  induction ops with
  | nil => exact fun s hs => hs
  | cons op rest ih =>
    exact fun s hs => ih (applyOp u s op) (applyOp_stateInv u s op hs)

lemma applyOp_get_user (u : String) (s : StoreState) (op : RegistryOp)
    (hs : StateInv s) (usr : User) (hu : s.get_user u = some usr) :
    ∃ usr', (applyOp u s op).get_user u = some usr' ∧
      usr.present_id ≤ usr'.present_id := by
  cases op with
  | createOp d =>
    refine ⟨{ usr with present_id := usr.present_id + 1 },
      create_present_get_user s u d usr hs hu, ?_⟩
    show usr.present_id ≤ usr.present_id + 1
    omega
  | deleteOp pid =>
    refine ⟨usr, ?_, le_refl _⟩
    show (delete_present s u pid).2.get_user u = some usr
    rw [get_user_delete]
    exact hu

lemma mintsOf_lower_bound (u : String) (ops : List RegistryOp) :
    ∀ (s : StoreState) (usr : User), StateInv s → s.get_user u = some usr →
      (∀ m ∈ mintsOf u s ops, usr.present_id ≤ m) ∧
      ∃ usr', (applyOps u s ops).get_user u = some usr' ∧
        usr.present_id ≤ usr'.present_id := by
  induction ops with
  | nil =>
    intro s usr _ hu
    exact ⟨fun m hm => absurd hm (by simp [mintsOf]), usr, hu, le_refl _⟩
  | cons op rest ih =>
    intro s usr hs hu
    have hs1 := applyOp_stateInv u s op hs
    obtain ⟨usr1, hu1, hle1⟩ := applyOp_get_user u s op hs usr hu
    obtain ⟨hm, usr', hu', hle'⟩ := ih (applyOp u s op) usr1 hs1 hu1
    constructor
    · intro m hmem
      unfold mintsOf at hmem
      rcases List.mem_append.mp hmem with hpre | hrest
      · cases op with
        | createOp d =>
          cases hps : s.get_presents u with
          | none =>
            rw [show mintOf u s = none from by simp [mintOf, hu, hps]] at hpre
            cases hpre
          | some ps =>
            rw [show mintOf u s = some usr.present_id from by
              simp [mintOf, hu, hps]] at hpre
            rw [Option.toList_some, List.mem_singleton] at hpre
            subst hpre
            exact le_refl _
        | deleteOp pid => cases hpre
      · exact le_trans hle1 (hm m hrest)
    · refine ⟨usr', ?_, le_trans hle1 hle'⟩
      show (applyOps u (applyOp u s op) rest).get_user u = some usr'
      exact hu'

/-- **C8.**  Present-id minting for an existing, well-formed owner: two
sequential creates mint the counter and the incremented counter — distinct,
strictly increasing ids; each create persists the counter incremented by
exactly 1; and along any sequence of create/delete calls for the owner, the
id of a present in the list at deletion time (in particular a deleted
present's id) is never minted by a later create. -/
theorem create_present_id_minting (s : StoreState) (u : String) (usr : User)
    (ps : List Present) (d1 d2 : PresentCreateData)
    (hs : StateInv s) (hu : s.get_user u = some usr)
    (hp : s.get_presents u = some ps) :
    mintsOf u s [RegistryOp.createOp d1, RegistryOp.createOp d2] =
      [usr.present_id, usr.present_id + 1] ∧
    usr.present_id < usr.present_id + 1 ∧
    (create_present s u d1).2.get_user u =
      some { usr with present_id := usr.present_id + 1 } ∧
    ∀ ops1 pid ops2 ps1 pdel,
      (applyOps u s ops1).get_presents u = some ps1 → pdel ∈ ps1 →
      pdel.id = pid →
      pid ∉ mintsOf u (applyOps u s (ops1 ++ [RegistryOp.deleteOp pid])) ops2 := by
  have hok1 := create_present_ok s u d1 usr ps hu hp
  have hu1 : (create_present s u d1).2.get_user u =
      some { usr with present_id := usr.present_id + 1 } :=
    create_present_get_user s u d1 usr hs hu
  have hp1 : (create_present s u d1).2.get_presents u =
      some (ps ++ [d1.to_present usr.present_id []]) := by
    rw [hok1]
    exact get_presents_upsert_presents_self _ u _
  refine ⟨?_, by omega, hu1, ?_⟩
  · show (mintOf u s).toList ++
        ((mintOf u (applyOp u s (.createOp d1))).toList ++ []) = _
    rw [show mintOf u s = some usr.present_id from by simp [mintOf, hu, hp]]
    rw [show mintOf u (applyOp u s (.createOp d1)) =
        some ({ usr with present_id := usr.present_id + 1 } : User).present_id
      from by
        show mintOf u (create_present s u d1).2 = _
        simp [mintOf, hu1, hp1]]
    rfl
  · intro ops1 pid ops2 ps1 pdel hps1 hmem hid
    have hs1' := applyOps_stateInv u ops1 s hs
    obtain ⟨_, usr1, hu1', _⟩ := mintsOf_lower_bound u ops1 s usr hs hu
    have hdlt : pdel.id < usr1.present_id :=
      (hs1'.2 u ps1 hps1).2 usr1 hu1' pdel hmem
    have happ : applyOps u s (ops1 ++ [RegistryOp.deleteOp pid]) =
        applyOp u (applyOps u s ops1) (RegistryOp.deleteOp pid) := by
      unfold applyOps
      rw [List.foldl_append]
      rfl
    have hs2 := applyOp_stateInv u (applyOps u s ops1) (.deleteOp pid) hs1'
    have hu2 : (applyOp u (applyOps u s ops1)
        (RegistryOp.deleteOp pid)).get_user u = some usr1 := by
      show (delete_present (applyOps u s ops1) u pid).2.get_user u = some usr1
      rw [get_user_delete]
      exact hu1'
    obtain ⟨hm2, _⟩ := mintsOf_lower_bound u ops2 _ usr1 hs2 hu2
    rw [happ]
    intro hcontra
    have hge := hm2 pid hcontra
    rw [← hid] at hge
    omega

theorem create_present_id_minting_witness :
    StateInv ⟨[("alice", aliceUser 5)], [("alice", [{ id := 1, title := "Book" }])]⟩ ∧
    mintsOf "alice"
        ⟨[("alice", aliceUser 5)], [("alice", [{ id := 1, title := "Book" }])]⟩
        [RegistryOp.createOp { title := "Pen" },
         RegistryOp.createOp { title := "Cup" }] = [5, 6] ∧
    (1 : Int) ∉ mintsOf "alice"
        (applyOps "alice"
          ⟨[("alice", aliceUser 5)], [("alice", [{ id := 1, title := "Book" }])]⟩
          [RegistryOp.deleteOp 1]) [RegistryOp.createOp { title := "Pen" }] := by
  have h := create_present_id_minting
    ⟨[("alice", aliceUser 5)], [("alice", [{ id := 1, title := "Book" }])]⟩
    "alice" (aliceUser 5) [{ id := 1, title := "Book" }]
    { title := "Pen" } { title := "Cup" } stateInv_aliceBook rfl rfl
  refine ⟨stateInv_aliceBook, h.1.trans (by decide), ?_⟩
  exact h.2.2.2 [] 1 [RegistryOp.createOp { title := "Pen" }]
    [{ id := 1, title := "Book" }] { id := 1, title := "Book" } rfl
    (List.mem_singleton.mpr rfl) rfl

end Aregalo
